import Mathlib

/-!
Verification development for the geomstats backend-abstraction core:
the pytorch random-sampling module (`geomstats/_backend/pytorch/random.py`),
the backend linear-algebra shape validation, the autodiff adapter, and the
geodesic-regression loss.  Stateful pytorch generator code is embedded by
explicit state passing; real numbers are embedded as exact rationals.
-/

namespace Geomstats

/-! ## Shapes and tensors -/

/-- Product of all entries of a shape tuple (number of elements of an array
of that shape). -/
def shapeProd (s : List Nat) : Nat := s.foldr (· * ·) 1

/-- An n-dimensional numeric array: a shape together with its (row-major)
flat data, which must have exactly as many entries as the shape demands. -/
structure Tensor where
  shape : List Nat
  data : List ℚ
  hlen : data.length = shapeProd shape

/-- A scalar array, of shape `()`. -/
def Tensor.scalar (q : ℚ) : Tensor := ⟨[], [q], rfl⟩

/-- The value held by a scalar array. -/
def Tensor.item (t : Tensor) : ℚ := t.data.headD 0

/-! ## List arithmetic helpers (pointwise vector operations) -/

/-- Pointwise sum of two vectors. -/
def addL (a b : List ℚ) : List ℚ := List.zipWith (· + ·) a b

/-- Pointwise difference of two vectors. -/
def subL (a b : List ℚ) : List ℚ := List.zipWith (· - ·) a b

/-- Scalar multiple of a vector. -/
def scalarMul (t : ℚ) (v : List ℚ) : List ℚ := v.map (fun x => t * x)

/-- Sum of the entries of a vector. -/
def sumL (l : List ℚ) : ℚ := l.foldr (· + ·) 0

/-- Sum of squared entries of a vector. -/
def sumSq (l : List ℚ) : ℚ := (l.map (fun x => x * x)).foldr (· + ·) 0

/-! ## The process-wide pytorch random generator

`random.py` mutates the process-wide torch generator.  The generator is
embedded as an explicit state threaded through every sampling call; the
engine's pseudo-random stream is modelled by a concrete 64-bit linear
congruential step, and a unit draw takes 53 bits of the state, giving a
rational in `[0, 1)` exactly as `torch.rand` produces floats in `[0, 1)`. -/

structure Generator where
  state : Nat
deriving DecidableEq

/-- One step of the engine's pseudo-random state transition. -/
def mixState (s : Nat) : Nat :=
  (6364136223846793005 * s + 1442695040888963407) % 18446744073709551616

/-- State after `k` engine steps. -/
def stateIter (s : Nat) : Nat → Nat
  | 0 => s
  | k + 1 => mixState (stateIter s k)

/-- Denominator of a unit draw: `2^53`. -/
def unitDen : Nat := 9007199254740992

/-- A unit draw in `[0, 1)` taken from an engine state. -/
def stateToUnit (s : Nat) : ℚ := ((s % unitDen : ℕ) : ℚ) / (unitDen : ℚ)

/-- `torch.manual_seed`: resets the whole generator state from the seed,
discarding whatever state the generator held before. -/
def manual_seed (k : Nat) : Generator := ⟨k % 18446744073709551616⟩

/-- The `k` unit draws in `[0, 1)` produced consecutively from generator `g`. -/
def drawListQ (k : Nat) (g : Generator) : List ℚ :=
  (List.range k).map fun i => stateToUnit (stateIter g.state (i + 1))

/-- The generator state after `k` consecutive draws. -/
def afterDraws (k : Nat) (g : Generator) : Generator := ⟨stateIter g.state k⟩

/-- `k` integer draws uniform in `[0, n)` (the engine's `randint` stream). -/
def drawIdx (n k : Nat) (g : Generator) : List Nat :=
  (List.range k).map fun i => stateIter g.state (i + 1) % n

/-- `torch.randint(n, size)`: fails when the range `[0, n)` is empty,
before consuming any generator state; otherwise draws `shapeProd size`
integers below `n` and advances the generator. -/
def randint (n : Nat) (size : List Nat) (g : Generator) :
    Except String (List Nat × Generator) :=
  if n = 0 then .error ("random_ expects from to be less than to")
  else .ok (drawIdx n (shapeProd size) g, afterDraws (shapeProd size) g)

/-! ## `random.py`: the torch random backend -/

/-- A python value passed to `choice`: a native torch tensor (its slices
along the first axis), a plain scalar, or a plain python list. -/
inductive PyObj where
  | tensor (rows : List (List ℚ))
  | pyscalar (q : ℚ)
  | pylist (l : List ℚ)
deriving DecidableEq

/-- `choice(x, a)`: when `x` is a native tensor, index it with
`torch.randint(len(x), (a,))`; any other python value is returned
unchanged. -/
def choice (x : PyObj) (a : Nat) (g : Generator) :
    Except String PyObj × Generator :=
  match x with
  | .tensor rows =>
    match randint rows.length [a] g with
    | .error e => (.error e, g)
    | .ok (idxs, g') => (.ok (.tensor (idxs.map fun i => rows.getD i [])), g')
  | other => (.ok other, g)

/-- `seed(*args)`: delegates to `torch.manual_seed`. -/
def seed (k : Nat) : Generator := manual_seed k

/-- The python `size` argument: a bare integer or a shape tuple
(`hasattr(size, "__iter__")` distinguishes the two). -/
inductive Size where
  | nat (n : Nat)
  | tuple (t : List Nat)
deriving DecidableEq

/-- Size normalization performed by `normal` and `uniform`: a bare integer
`n` becomes the tuple `(n,)`. -/
def normSize : Size → List Nat
  | .nat n => [n]
  | .tuple t => t

/-- The engine's transform of a unit draw into a standard-normal draw.
The distributional shape of the engine's sampler is outside the scope of
the embedding; it is modelled by a fixed deterministic rational map. -/
def invGauss (u : ℚ) : ℚ := 2 * u - 1

/-- `normal(loc, scale, size)`: normalizes `size`, then draws
`shapeProd size` normal variates with mean `loc` and deviation `scale`. -/
def normal (loc scale : ℚ) (size : Size) (g : Generator) :
    Tensor × Generator :=
  let sz := normSize size
  (⟨sz, (drawListQ (shapeProd sz) g).map fun u => loc + scale * invGauss u,
    by simp [drawListQ]⟩,
   afterDraws (shapeProd sz) g)

/-- `uniform(low, high, size)`: normalizes `size`, raises a `ValueError`
when `low >= high` (before touching the generator), and otherwise returns
`(high - low) * torch.rand(*size) + low`. -/
def uniform (low high : ℚ) (size : Size) (g : Generator) :
    Except String Tensor × Generator :=
  let sz := normSize size
  if low ≥ high then (.error ("Upper bound must be higher than lower bound"), g)
  else
    (.ok ⟨sz, (drawListQ (shapeProd sz) g).map fun r => (high - low) * r + low,
       by simp [drawListQ]⟩,
     afterDraws (shapeProd sz) g)

/-- Whether a sampling call returned normally. -/
def isOkT (r : Except String Tensor) : Bool :=
  match r with
  | .ok _ => true
  | .error _ => false

/-- The data of a normally returned sample (empty when the call failed). -/
def okData (r : Except String Tensor) : List ℚ :=
  match r with
  | .ok t => t.data
  | .error _ => []

/-- The shape of a normally returned sample (empty when the call failed). -/
def okShape (r : Except String Tensor) : List Nat :=
  match r with
  | .ok t => t.shape
  | .error _ => []

/-- Matrix-vector product over rationals. -/
def matVec (m : List (List ℚ)) (v : List ℚ) : List ℚ :=
  m.map fun row => sumL (List.zipWith (· * ·) row v)

/-- `multivariate_normal(mean, cov, size)`: draws `shapeProd size` (one if
`size` is `None`) jointly normal vectors with the given mean and
covariance; the engine's joint sampler is modelled as a deterministic
transform of consecutive generator draws. -/
def multivariate_normal (mean : List ℚ) (cov : List (List ℚ))
    (size : Option (List Nat)) (g : Generator) :
    List (List ℚ) × Generator :=
  let k := match size with | none => 1 | some s => shapeProd s
  let d := mean.length
  let zs := (List.range k).map fun i =>
    (List.range d).map fun j => invGauss (stateToUnit (stateIter g.state (i * d + j + 1)))
  (zs.map fun z => addL mean (matVec cov z), afterDraws (k * d) g)

/-! ## Sampling call sequences (for the determinism claim) -/

/-- A call into the random module. -/
inductive RCall where
  | cSeed (k : Nat)
  | cUniform (low high : ℚ) (size : Size)
  | cNormal (loc scale : ℚ) (size : Size)
  | cChoice (x : PyObj) (a : Nat)
  | cMvn (mean : List ℚ) (cov : List (List ℚ)) (size : Option (List Nat))

/-- The observable outcome of one call. -/
inductive RResult where
  | rSeed
  | rErr (msg : String)
  | rTensor (t : Tensor)
  | rObj (o : PyObj)
  | rVecs (v : List (List ℚ))

/-- Execute one call against the process-wide generator. -/
def execCall : RCall → Generator → RResult × Generator
  | .cSeed k, _ => (.rSeed, seed k)
  | .cUniform low high size, g =>
    match uniform low high size g with
    | (.ok t, g') => (.rTensor t, g')
    | (.error e, g') => (.rErr e, g')
  | .cNormal loc scale size, g =>
    let (t, g') := normal loc scale size g
    (.rTensor t, g')
  | .cChoice x a, g =>
    match choice x a g with
    | (.ok o, g') => (.rObj o, g')
    | (.error e, g') => (.rErr e, g')
  | .cMvn mean cov size, g =>
    let (v, g') := multivariate_normal mean cov size g
    (.rVecs v, g')

/-- Execute a sequence of calls, threading the generator, and collect every
call's outcome. -/
def execCalls : List RCall → Generator → List RResult × Generator
  | [], g => ([], g)
  | c :: cs, g =>
    let (r, g') := execCall c g
    let (rs, g'') := execCalls cs g'
    (r :: rs, g'')

/-! ## The manifold/metric protocol and the geodesic-regression loss

The estimator source is not under `src/` (only its tests are); the
definitions below are modelled from the spec. -/

/-- Modelled from the spec: the Manifold & Metric Protocol consumed by the
regression estimator (`exp`, the squared Riemannian distance induced by
`exp`/`log`, and the regularization penalty, which discourages the
coefficient's transport discrepancy and therefore vanishes at a genuine
(tangent vector, base point) pair). The missing code is
`geomstats.learning.geodesic_regression` and the manifold classes. -/
structure ManifoldOps where
  exp : List ℚ → List ℚ → List ℚ
  squared_dist : List ℚ → List ℚ → ℚ
  reg_term : List ℚ → List ℚ → ℚ
  isTangent : List ℚ → List ℚ → Prop
  squared_dist_self : ∀ p, squared_dist p p = 0
  reg_term_tangent : ∀ c p, isTangent c p → reg_term c p = 0

/-- Sum over the samples of the squared distance from each target `y_i` to
the model prediction `exp(X_i * coef, intercept)`. -/
def lossSum (M : ManifoldOps) (X : List ℚ) (y : List (List ℚ))
    (ι c : List ℚ) : ℚ :=
  (List.zipWith (fun xi yi => M.squared_dist yi (M.exp (scalarMul xi c) ι)) X y).foldr
    (· + ·) 0

/-- Modelled from the spec: `GeodesicRegression._loss(X, y, param, shape)`
(estimator source not under `src/`).  It unpacks `param` through the fixed
`(2,) + shape` layout — the first `shapeProd shape` entries are the
intercept, the rest the coefficient — and returns the scalar array
`(1/n) * sum_i d(y_i, exp(X_i * coef, intercept))^2
 + regularization * R(coef, intercept)` with `n = len(X)`. -/
def loss (M : ManifoldOps) (reg : ℚ) (X : List ℚ) (y : List (List ℚ))
    (param : Tensor) (shape : List Nat) : Tensor :=
  let m := shapeProd shape
  let ι := param.data.take m
  let c := param.data.drop m
  Tensor.scalar (lossSum M X y ι c / (X.length : ℚ) + reg * M.reg_term c ι)

/-- The Euclidean space: `exp` is translation, the squared distance is the
squared norm of the difference, every vector is tangent, and the
off-manifold regularization discrepancy is identically zero because the
Euclidean projection is the identity. -/
def euclOps : ManifoldOps where
  exp v p := addL p v
  squared_dist p q := sumSq (subL p q)
  reg_term _ _ := 0
  isTangent _ _ := True
  squared_dist_self p := by
    induction p with
    | nil => rfl
    | cons a t ih =>
      simp only [subL, List.zipWith_cons_cons, sumSq, List.map_cons,
        List.foldr_cons] at ih ⊢
      simpa using ih
  reg_term_tangent _ _ _ := rfl

/-! ## The autodiff adapter

`gs.autodiff.value_and_grad` is not under `src/`; it is modelled from the
spec.  The engine's differentiation mechanism is modelled by exact
symmetric difference quotients with unit step, which agree with the
derivative on the quadratic losses considered by the tests. -/

/-- `p` with its `j`-th flat entry shifted by `δ`. -/
def bumpAt (p : Tensor) (j : Nat) (δ : ℚ) : Tensor :=
  ⟨p.shape, p.data.set j (p.data.getD j 0 + δ),
    by rw [List.length_set]; exact p.hlen⟩

/-- Modelled from the spec: the Autodiff Adapter with `to_numpy=False`.
From `f : Parameter → scalar Loss` it returns the pair of the loss value
and the gradient `∂Loss/∂Parameter`, an array of exactly the parameter's
shape. -/
def value_and_grad (f : Tensor → ℚ) (p : Tensor) : ℚ × Tensor :=
  (f p,
   ⟨p.shape,
    (List.range p.data.length).map fun j => (f (bumpAt p j 1) - f (bumpAt p j (-1))) / 2,
    by rw [List.length_map, List.length_range]; exact p.hlen⟩)

/-- A host-independent ("numpy") scalar: an exact integer/denominator
pair, comparable across engines. -/
def toNp (q : ℚ) : Int × Nat := (q.num, q.den)

/-- Re-embedding a host-independent scalar into the native numeric type. -/
def fromNp (p : Int × Nat) : ℚ := (p.1 : ℚ) / (p.2 : ℚ)

/-- A host-independent array: shape plus host-independent entries. -/
structure NpArray where
  shape : List Nat
  data : List (Int × Nat)
  hlen : data.length = shapeProd shape

/-- Conversion of a native array to the host-independent representation. -/
def tensorToNp (t : Tensor) : NpArray :=
  ⟨t.shape, t.data.map toNp, by rw [List.length_map]; exact t.hlen⟩

/-- `gs.array`: re-embedding of a host-independent array into the native
array type. -/
def gsArray (a : NpArray) : Tensor :=
  ⟨a.shape, a.data.map fromNp, by rw [List.length_map]; exact a.hlen⟩

/-- Modelled from the spec: the Autodiff Adapter with `to_numpy=True`:
the same value and gradient as `value_and_grad`, adapted into the
host-independent representation before being returned. -/
def value_and_grad_np (f : Tensor → ℚ) (p : Tensor) : (Int × Nat) × NpArray :=
  let (v, gr) := value_and_grad f p
  (toNp v, tensorToNp gr)

/-! ## Backend linear-algebra shape validation

The backend `matmul`/`dot`/`cross` implementations are not under `src/`
(only `tests/data/backends_data.py` lists which operand shapes must
raise); the shape-level validation below is modelled from the spec. -/

/-- Broadcast of one dimension pair: equal dimensions, or one of them 1. -/
def broadcast2 (a b : Nat) : Option Nat :=
  if a = b then some a else if a = 1 then some b else if b = 1 then some a else none

/-- Broadcast of two shapes given with their dimensions reversed (aligned
from the trailing axis, missing leading axes treated as present). -/
def broadcastRev : List Nat → List Nat → Option (List Nat)
  | [], bs => some bs
  | as, [] => some as
  | a :: as, b :: bs =>
    match broadcast2 a b, broadcastRev as bs with
    | some d, some rest => some (d :: rest)
    | _, _ => none

/-- Modelled from the spec: `matmul` shape validation.  Both operands must
have at least two dimensions, the contracted inner dimensions must agree,
and the leading batch dimensions must broadcast; any violation is a
shape-mismatch error raised before the engine is consulted. -/
def matmul (a b : List Nat) : Except String (List Nat) :=
  match a.reverse, b.reverse with
  | k :: i :: arest, n :: j :: brest =>
    if k ≠ j then .error ("matmul: inner dimensions mismatch")
    else
      match broadcastRev arest brest with
      | none => .error ("matmul: batch dimensions not broadcastable")
      | some batchRev => .ok ((n :: i :: batchRev).reverse)
  | _, _ => .error ("matmul: operands must have at least 2 dimensions")

/-- Modelled from the spec: `dot` shape validation, the vectorized
contraction `...i,...i->...`: last dimensions must agree exactly and the
batch dimensions must broadcast. -/
def dot (a b : List Nat) : Except String (List Nat) :=
  match a.reverse, b.reverse with
  | i :: arest, j :: brest =>
    if i ≠ j then .error ("dot: last dimensions mismatch")
    else
      match broadcastRev arest brest with
      | none => .error ("dot: batch dimensions not broadcastable")
      | some rest => .ok rest.reverse
  | _, _ => .error ("dot: operands must have at least 1 dimension")

/-- Modelled from the spec: `cross` shape validation: both last dimensions
must be 3 and the batch dimensions must broadcast. -/
def cross (a b : List Nat) : Except String (List Nat) :=
  match a.reverse, b.reverse with
  | 3 :: arest, 3 :: brest =>
    match broadcastRev arest brest with
    | none => .error ("cross: batch dimensions not broadcastable")
    | some rest => .ok ((3 :: rest).reverse)
  | _, _ => .error ("cross: last dimension of both operands must be 3")

/-- Per-coordinate residual sum of the Euclidean regression loss: the sum
over samples of `y_i[j] - (intercept[j] + X_i * coef[j])`; `-2/n` times it
is the loss's partial derivative in the `j`-th intercept coordinate. -/
def resI (X : List ℚ) (y : List (List ℚ)) (ι c : List ℚ) (j : Nat) : ℚ :=
  sumL (List.zipWith (fun xi yi => yi.getD j 0 - (ι.getD j 0 + xi * c.getD j 0)) X y)

/-- Predictor-weighted residual sum: the sum over samples of
`X_i * (y_i[j] - (intercept[j] + X_i * coef[j]))`; `-2/n` times it is the
loss's partial derivative in the `j`-th coefficient coordinate. -/
def resX (X : List ℚ) (y : List (List ℚ)) (ι c : List ℚ) (j : Nat) : ℚ :=
  sumL (List.zipWith (fun xi yi => xi * (yi.getD j 0 - (ι.getD j 0 + xi * c.getD j 0))) X y)

/-- Sum over the samples of the squared predictor. -/
def sumXX (X : List ℚ) (y : List (List ℚ)) : ℚ :=
  sumL (List.zipWith (fun xi (_ : List ℚ) => xi * xi) X y)

/-- Count of the paired samples, as a rational. -/
def cntQ (X : List ℚ) (y : List (List ℚ)) : ℚ :=
  sumL (List.zipWith (fun (_ : ℚ) (_ : List ℚ) => (1 : ℚ)) X y)

/-- Whether a result is a (shape-mismatch) error. -/
def isShapeError (r : Except String (List Nat)) : Bool :=
  match r with
  | .error _ => true
  | .ok _ => false

/-- The standard contraction/broadcasting compatibility condition for
matrix multiplication (with the usual promotion of 1-D operands). -/
def stdMatmulCompatible (a b : List Nat) : Bool :=
  match (if a.length = 1 then 1 :: a else a).reverse,
        (if b.length = 1 then b ++ [1] else b).reverse with
  | k :: _ :: arest, _ :: j :: brest =>
    k == j && (broadcastRev arest brest).isSome
  | _, _ => false

/-- The standard compatibility condition for the vectorized dot product:
equal contracted last dimensions over broadcastable batches. -/
def stdDotCompatible (a b : List Nat) : Bool :=
  match a.reverse, b.reverse with
  | i :: arest, j :: brest => i == j && (broadcastRev arest brest).isSome
  | _, _ => false

/-- The standard compatibility condition for the cross product of
3-vectors over broadcastable batches. -/
def stdCrossCompatible (a b : List Nat) : Bool :=
  match a.reverse, b.reverse with
  | i :: arest, j :: brest => i == 3 && j == 3 && (broadcastRev arest brest).isSome
  | _, _ => false

/-! ## General helper lemmas -/

theorem Tensor.ext' {t u : Tensor} (hs : t.shape = u.shape) (hd : t.data = u.data) :
    t = u := by
  cases t; cases u; cases hs; cases hd; rfl

theorem getD_mem_of_lt {α : Type} (l : List α) (d : α) (i : Nat) (h : i < l.length) :
    l.getD i d ∈ l := by
  rw [List.getD_eq_getElem l d h]
  exact List.getElem_mem h

theorem stateToUnit_nonneg (s : Nat) : 0 ≤ stateToUnit s := by
  unfold stateToUnit
  positivity

theorem stateToUnit_lt_one (s : Nat) : stateToUnit s < 1 := by
  unfold stateToUnit
  rw [div_lt_one (by norm_num [unitDen])]
  exact_mod_cast Nat.mod_lt s (by norm_num [unitDen])

theorem mem_drawListQ_unit {r : ℚ} {k : Nat} {g : Generator}
    (h : r ∈ drawListQ k g) : 0 ≤ r ∧ r < 1 := by
  unfold drawListQ at h
  rw [List.mem_map] at h
  obtain ⟨i, _, rfl⟩ := h
  exact ⟨stateToUnit_nonneg _, stateToUnit_lt_one _⟩

/-! ## C2: `uniform` domain validation -/

/-- C2: for every pair of bounds with `low >= high` and every size,
`uniform(low, high, size)` raises the domain `ValueError` and returns no
value; for `low < high` it returns normally. -/
theorem C2_uniform_domain_error :
    ∀ (low high : ℚ) (size : Size) (g : Generator),
    (low ≥ high → (uniform low high size g).1
        = Except.error ("Upper bound must be higher than lower bound"))
    ∧ (low < high → isOkT (uniform low high size g).1 = true) := by
  intro low high size g
  constructor
  · intro h
    simp [uniform, h]
  · intro h
    simp [uniform, not_le.mpr h, isOkT]

/-- Witness for C2 at the concrete bound pairs `(1, 0)` and `(0, 1)`. -/
theorem C2_witness :
    (uniform (1 : ℚ) 0 (Size.nat 2) (manual_seed 7)).1
      = Except.error ("Upper bound must be higher than lower bound")
    ∧ isOkT (uniform (0 : ℚ) 1 (Size.nat 2) (manual_seed 7)).1 = true :=
  ⟨(C2_uniform_domain_error 1 0 (Size.nat 2) (manual_seed 7)).1 (by norm_num),
   (C2_uniform_domain_error 0 1 (Size.nat 2) (manual_seed 7)).2 (by norm_num)⟩

/-! ## C3: determinism of seeding -/

/-- C3: seeding is deterministic: two runs that each call `seed(k)` from
arbitrary (possibly different) prior generator states and then perform the
same sequence of sampling calls produce identical draws (and identical
final generator states). -/
theorem C3_seed_determinism :
    ∀ (k : Nat) (calls : List RCall) (g₁ g₂ : Generator),
    execCalls (RCall.cSeed k :: calls) g₁ = execCalls (RCall.cSeed k :: calls) g₂ := by
  intro k calls g₁ g₂
  rfl

/-! ## C10: atomicity of `uniform` on error -/

/-- C10: when `uniform` raises the domain error for `low >= high`, the
validation happens before any draw, so the process-wide generator is left
unchanged, and a subsequent draw behaves as if the failed call had never
happened. -/
theorem C10_uniform_error_atomic :
    ∀ (low high : ℚ) (size : Size) (g : Generator), low ≥ high →
    (uniform low high size g).2 = g
    ∧ ∀ (loc scale : ℚ) (sz : Size),
        normal loc scale sz (uniform low high size g).2 = normal loc scale sz g := by
  intro low high size g h
  have h2 : (uniform low high size g).2 = g := by simp [uniform, h]
  exact ⟨h2, fun loc scale sz => by rw [h2]⟩

/-- Witness for C10 at `low = 1 >= 0 = high`. -/
theorem C10_witness :
    (uniform (1 : ℚ) 0 (Size.nat 3) (manual_seed 5)).2 = manual_seed 5
    ∧ normal 0 1 (Size.nat 1) (uniform (1 : ℚ) 0 (Size.nat 3) (manual_seed 5)).2
        = normal 0 1 (Size.nat 1) (manual_seed 5) :=
  ⟨(C10_uniform_error_atomic 1 0 (Size.nat 3) (manual_seed 5) (by norm_num)).1,
   (C10_uniform_error_atomic 1 0 (Size.nat 3) (manual_seed 5) (by norm_num)).2 0 1 (Size.nat 1)⟩

/-! ## C5: `uniform` range and size normalization -/

/-- C5: for `low < high` every element returned by `uniform` lies in
`[low, high)`; an integer size `n` is normalized to the tuple `(n,)`, so
the call is identical to passing `(n,)` and the result has shape `(n,)`;
and `normal` applies the same integer-to-tuple size normalization. -/
theorem C5_uniform_range_and_size_normalization :
    ∀ (low high loc scale : ℚ) (size : Size) (n : Nat) (g : Generator),
    (∀ x ∈ okData (uniform low high size g).1, low ≤ x ∧ x < high)
    ∧ uniform low high (Size.nat n) g = uniform low high (Size.tuple [n]) g
    ∧ (low < high → okShape (uniform low high (Size.nat n) g).1 = [n])
    ∧ normal loc scale (Size.nat n) g = normal loc scale (Size.tuple [n]) g := by
  intro low high loc scale size n g
  refine ⟨?_, rfl, ?_, rfl⟩
  · intro x hx
    by_cases h : low ≥ high
    · simp [uniform, h, okData] at hx
    · rw [not_le] at h
      simp only [uniform, if_neg (not_le.mpr h), okData] at hx
      rw [List.mem_map] at hx
      obtain ⟨r, hr, rfl⟩ := hx
      obtain ⟨hr0, hr1⟩ := mem_drawListQ_unit hr
      have hd : 0 < high - low := sub_pos.mpr h
      constructor
      · nlinarith
      · nlinarith
  · intro h
    simp [uniform, not_le.mpr h, okShape, normSize]

/-- Witness for C5 at `low = 0 < 1 = high`, integer size 2. -/
theorem C5_witness :
    ((okData (uniform (0 : ℚ) 1 (Size.nat 2) (manual_seed 7)).1).all
        (fun x => decide ((0 : ℚ) ≤ x) && decide (x < 1)) = true)
    ∧ uniform (0 : ℚ) 1 (Size.nat 2) (manual_seed 7)
        = uniform (0 : ℚ) 1 (Size.tuple [2]) (manual_seed 7)
    ∧ okShape (uniform (0 : ℚ) 1 (Size.nat 2) (manual_seed 7)).1 = [2]
    ∧ normal (0 : ℚ) 1 (Size.nat 2) (manual_seed 7)
        = normal (0 : ℚ) 1 (Size.tuple [2]) (manual_seed 7) := by
  have h := C5_uniform_range_and_size_normalization 0 1 0 1 (Size.nat 2) 2 (manual_seed 7)
  refine ⟨?_, h.2.1, h.2.2.1 (by norm_num), h.2.2.2⟩
  rw [List.all_eq_true]
  intro x hx
  have hb := h.1 x hx
  simp [hb.1, hb.2]

/-! ## C4: `choice` pass-through and sampling (corrected) -/

/-- C4 as stated is false: on a native tensor whose first axis is empty,
`choice(population, 1)` does not return an array of one element — the
underlying `randint(0, (1,))` fails because its range `[0, 0)` is empty. -/
theorem C4_counterexample :
    (choice (PyObj.tensor []) 1 (manual_seed 0)).1
      = Except.error ("random_ expects from to be less than to") := rfl

/-- C4 (amended): if the population is a native tensor with a nonempty
first axis, `choice(population, a)` returns a tensor of exactly `a`
elements, each equal to some slice along the population's first axis; a
non-tensor population (scalar or list) is returned unchanged. -/
theorem C4_choice_amended :
    ∀ (rows : List (List ℚ)) (a : Nat) (g : Generator),
    (rows ≠ [] → ∃ out g',
        choice (PyObj.tensor rows) a g = (Except.ok (PyObj.tensor out), g')
        ∧ out.length = a ∧ ∀ r ∈ out, r ∈ rows)
    ∧ (∀ q, choice (PyObj.pyscalar q) a g = (Except.ok (PyObj.pyscalar q), g))
    ∧ (∀ l, choice (PyObj.pylist l) a g = (Except.ok (PyObj.pylist l), g)) := by
  intro rows a g
  refine ⟨?_, fun q => rfl, fun l => rfl⟩
  intro hne
  have hlen : rows.length ≠ 0 := fun h => hne (List.length_eq_zero.mp h)
  refine ⟨(drawIdx rows.length (shapeProd [a]) g).map fun i => rows.getD i [],
          afterDraws (shapeProd [a]) g, ?_, ?_, ?_⟩
  · simp [choice, randint, hlen]
  · simp [drawIdx, shapeProd]
  · intro r hr
    rw [List.mem_map] at hr
    obtain ⟨i, hi, rfl⟩ := hr
    simp only [drawIdx, List.mem_map] at hi
    obtain ⟨t, _, rfl⟩ := hi
    exact getD_mem_of_lt rows [] _ (Nat.mod_lt _ (Nat.pos_of_ne_zero hlen))

/-- Witness for C4's amended claim: pass-through of non-tensors, and no
domain error on a nonempty tensor. -/
theorem C4_witness :
    choice (PyObj.pyscalar 7) 3 (manual_seed 5) = (Except.ok (PyObj.pyscalar 7), manual_seed 5)
    ∧ choice (PyObj.pylist [1, 2]) 2 (manual_seed 5)
        = (Except.ok (PyObj.pylist [1, 2]), manual_seed 5)
    ∧ ∃ out g', choice (PyObj.tensor [[(1 : ℚ)], [2]]) 3 (manual_seed 5)
        = (Except.ok (PyObj.tensor out), g')
        ∧ out.length = 3 ∧ ∀ r ∈ out, r ∈ [[(1 : ℚ)], [2]] :=
  ⟨(C4_choice_amended [[1], [2]] 3 (manual_seed 5)).2.1 7,
   (C4_choice_amended [[1], [2]] 2 (manual_seed 5)).2.2 [1, 2],
   (C4_choice_amended [[1], [2]] 3 (manual_seed 5)).1 (by decide)⟩

/-! ## C1: the regression loss vanishes at the true parameters -/

theorem lossSum_self (M : ManifoldOps) (X : List ℚ) (ι c : List ℚ) :
    lossSum M X (X.map fun xi => M.exp (scalarMul xi c) ι) ι c = 0 := by
  induction X with
  | nil => rfl
  | cons x xs ih =>
    simp only [lossSum, List.map_cons, List.zipWith_cons_cons, List.foldr_cons] at ih ⊢
    rw [M.squared_dist_self, ih]
    ring

/-- C1: for every manifold, predictors `X`, targets `y` and parameter
stacking `[true_intercept, true_coef]` in the fixed `(2,) + shape` layout,
if every `y_i` equals `exp(X_i * true_coef, true_intercept)` then
`loss(X, y, param, shape)` is a scalar array of shape `()` whose value is
exactly 0. -/
theorem C1_loss_zero_at_true_params
    (M : ManifoldOps) (reg : ℚ) (X : List ℚ) (ι₀ c₀ : List ℚ)
    (shape : List Nat) (param : Tensor) (y : List (List ℚ))
    (hι : ι₀.length = shapeProd shape)
    (hp : param.data = ι₀ ++ c₀)
    (ht : M.isTangent c₀ ι₀)
    (hy : y = X.map fun xi => M.exp (scalarMul xi c₀) ι₀) :
    (loss M reg X y param shape).shape = []
    ∧ (loss M reg X y param shape).item = 0 := by
  subst hy
  have h1 : param.data.take (shapeProd shape) = ι₀ := by
    rw [hp]; exact List.take_left' hι
  have h2 : param.data.drop (shapeProd shape) = c₀ := by
    rw [hp]; exact List.drop_left' hι
  refine ⟨rfl, ?_⟩
  simp only [loss, h1, h2, Tensor.item, Tensor.scalar, List.headD]
  rw [lossSum_self, M.reg_term_tangent c₀ ι₀ ht]
  simp

/-- Witness for C1 on the Euclidean space with one sample. -/
theorem C1_witness :
    (loss euclOps 1 [1] [[(1 : ℚ)]] ⟨[2, 1], [0, 1], by decide⟩ [1]).shape = []
    ∧ (loss euclOps 1 [1] [[(1 : ℚ)]] ⟨[2, 1], [0, 1], by decide⟩ [1]).item = 0 :=
  C1_loss_zero_at_true_params euclOps 1 [1] [0] [1] [1] ⟨[2, 1], [0, 1], by decide⟩
    [[1]] (by decide) rfl trivial (by norm_num [euclOps, scalarMul, addL])

/-! ## C7: gradient shape equals parameter shape -/

/-- C7: at every parameter with the fixed `(2,) + point_shape` layout, the
autodiff adapter applied to the regression loss returns a gradient array
whose shape equals the parameter's shape, `(2,) + point_shape`. -/
theorem C7_grad_shape_matches_param
    (M : ManifoldOps) (reg : ℚ) (X : List ℚ) (y : List (List ℚ))
    (shape : List Nat) (param : Tensor)
    (hs : param.shape = 2 :: shape) :
    (value_and_grad (fun p => (loss M reg X y p shape).item) param).2.shape = param.shape
    ∧ (value_and_grad (fun p => (loss M reg X y p shape).item) param).2.shape
        = 2 :: shape := by
  exact ⟨rfl, hs⟩

/-- Witness for C7 on the Euclidean space. -/
theorem C7_witness :
    (value_and_grad (fun p => (loss euclOps 0 [1] [[(1 : ℚ)]] p [1]).item)
        ⟨[2, 1], [0, 0], by decide⟩).2.shape = (⟨[2, 1], [0, 0], by decide⟩ : Tensor).shape
    ∧ (value_and_grad (fun p => (loss euclOps 0 [1] [[(1 : ℚ)]] p [1]).item)
        ⟨[2, 1], [0, 0], by decide⟩).2.shape = 2 :: [1] :=
  C7_grad_shape_matches_param euclOps 0 [1] [[1]] [1] ⟨[2, 1], [0, 0], by decide⟩ rfl

/-! ## C9: `to_numpy` round-trip -/

/-- C9: for every loss function and every parameter, evaluating the
adapter with `to_numpy=True` and re-embedding the returned value and
gradient into the native array type yields exactly the `to_numpy=False`
value and gradient. -/
theorem C9_to_numpy_round_trip (f : Tensor → ℚ) (p : Tensor) :
    fromNp (value_and_grad_np f p).1 = (value_and_grad f p).1
    ∧ gsArray (value_and_grad_np f p).2 = (value_and_grad f p).2 := by
  constructor
  · exact Rat.num_div_den _
  · apply Tensor.ext'
    · rfl
    · show ((value_and_grad f p).2.data.map toNp).map fromNp = (value_and_grad f p).2.data
      rw [List.map_map]
      have hid : fromNp ∘ toNp = id := funext fun q => Rat.num_div_den q
      rw [hid, List.map_id]

/-! ## C6: shape-mismatch validation of matmul, dot, cross -/

theorem matmul_ok_std {a b s : List Nat} (h : matmul a b = Except.ok s) :
    stdMatmulCompatible a b = true := by
  unfold matmul at h
  split at h
  case h_2 => exact absurd h (by simp)
  case h_1 k i arest n j brest ha hb =>
    by_cases hkj : k = j
    · rw [if_neg (by simp [hkj])] at h
      cases hbr : broadcastRev arest brest with
      | none => rw [hbr] at h; exact absurd h (by simp)
      | some batchRev =>
        have hal : a.length = arest.length + 2 := by
          simpa using congrArg List.length ha
        have hbl : b.length = brest.length + 2 := by
          simpa using congrArg List.length hb
        unfold stdMatmulCompatible
        rw [if_neg (by omega), if_neg (by omega), ha, hb]
        simp [hkj, hbr]
    · rw [if_pos hkj] at h
      exact absurd h (by simp)

theorem dot_ok_std {a b s : List Nat} (h : dot a b = Except.ok s) :
    stdDotCompatible a b = true := by
  unfold dot at h
  split at h
  case h_2 => exact absurd h (by simp)
  case h_1 i arest j brest ha hb =>
    by_cases hij : i = j
    · rw [if_neg (by simp [hij])] at h
      cases hbr : broadcastRev arest brest with
      | none => rw [hbr] at h; exact absurd h (by simp)
      | some rest =>
        unfold stdDotCompatible
        rw [ha, hb]
        simp [hij, hbr]
    · rw [if_pos hij] at h
      exact absurd h (by simp)

theorem cross_ok_std {a b s : List Nat} (h : cross a b = Except.ok s) :
    stdCrossCompatible a b = true := by
  unfold cross at h
  split at h
  case h_2 => exact absurd h (by simp)
  case h_1 arest brest ha hb =>
    split at h
    case h_1 => exact absurd h (by simp)
    case h_2 rest hbr =>
      unfold stdCrossCompatible
      rw [ha, hb]
      simp [hbr]

/-- C6: whenever the operand shapes of `matmul`, `dot` or `cross` are
incompatible under the standard broadcasting/contraction rules, the
operation fails with an explicit shape-mismatch error (it never returns a
silently broadcast or truncated result). -/
theorem C6_incompatible_shapes_error :
    (∀ a b : List Nat, stdMatmulCompatible a b = false → isShapeError (matmul a b) = true)
    ∧ (∀ a b : List Nat, stdDotCompatible a b = false → isShapeError (dot a b) = true)
    ∧ (∀ a b : List Nat, stdCrossCompatible a b = false → isShapeError (cross a b) = true) := by
  refine ⟨fun a b h => ?_, fun a b h => ?_, fun a b h => ?_⟩
  · cases hm : matmul a b with
    | error e => rfl
    | ok s => rw [matmul_ok_std hm] at h; exact absurd h (by simp)
  · cases hm : dot a b with
    | error e => rfl
    | ok s => rw [dot_ok_std hm] at h; exact absurd h (by simp)
  · cases hm : cross a b with
    | error e => rfl
    | ok s => rw [cross_ok_std hm] at h; exact absurd h (by simp)

/-- Witness for C6 at the mismatched shapes listed by the claim:
`matmul` of `(2,3,3)` with `(2,3)`, `dot` of a length-4 with a length-3
vector, and `cross` of two length-4 vectors. -/
theorem C6_witness :
    isShapeError (matmul [2, 3, 3] [2, 3]) = true
    ∧ isShapeError (dot [4] [3]) = true
    ∧ isShapeError (cross [4] [4]) = true :=
  ⟨C6_incompatible_shapes_error.1 [2, 3, 3] [2, 3] (by decide),
   C6_incompatible_shapes_error.2.1 [4] [3] (by decide),
   C6_incompatible_shapes_error.2.2 [4] [4] (by decide)⟩

/-! ## C8: gradient finiteness and non-degeneracy (helper lemmas) -/

theorem getD_map_lt (f : ℚ → ℚ) (l : List ℚ) (j : Nat) (h : j < l.length) :
    (l.map f).getD j 0 = f (l.getD j 0) := by
  induction l generalizing j with
  | nil => simp at h
  | cons a t ih =>
    cases j with
    | zero => simp
    | succ j =>
      simp only [List.map_cons, List.getD_cons_succ]
      exact ih j (by simpa using h)

theorem getD_zipWith_lt (f : ℚ → ℚ → ℚ) (a b : List ℚ) (j : Nat)
    (ha : j < a.length) (hb : j < b.length) :
    (List.zipWith f a b).getD j 0 = f (a.getD j 0) (b.getD j 0) := by
  induction a generalizing b j with
  | nil => simp at ha
  | cons x xs ih =>
    cases b with
    | nil => simp at hb
    | cons y ys =>
      cases j with
      | zero => simp
      | succ j =>
        simp only [List.zipWith_cons_cons, List.getD_cons_succ]
        exact ih ys j (by simpa using ha) (by simpa using hb)

theorem zipWith_set_left (f : ℚ → ℚ → ℚ) (a b : List ℚ) (j : Nat) (v : ℚ)
    (ha : j < a.length) (hb : j < b.length) :
    List.zipWith f (a.set j v) b = (List.zipWith f a b).set j (f v (b.getD j 0)) := by
  induction a generalizing b j with
  | nil => simp at ha
  | cons x xs ih =>
    cases b with
    | nil => simp at hb
    | cons y ys =>
      cases j with
      | zero => simp
      | succ j =>
        simp only [List.zipWith_cons_cons, List.set_cons_succ, List.getD_cons_succ]
        rw [ih ys j (by simpa using ha) (by simpa using hb)]

theorem zipWith_set_right (f : ℚ → ℚ → ℚ) (a b : List ℚ) (j : Nat) (v : ℚ)
    (ha : j < a.length) (hb : j < b.length) :
    List.zipWith f a (b.set j v) = (List.zipWith f a b).set j (f (a.getD j 0) v) := by
  induction a generalizing b j with
  | nil => simp at ha
  | cons x xs ih =>
    cases b with
    | nil => simp at hb
    | cons y ys =>
      cases j with
      | zero => simp
      | succ j =>
        simp only [List.zipWith_cons_cons, List.set_cons_succ, List.getD_cons_succ]
        rw [ih ys j (by simpa using ha) (by simpa using hb)]

theorem sumSq_cons (a : ℚ) (t : List ℚ) : sumSq (a :: t) = a * a + sumSq t := rfl

theorem sumSq_set (v : List ℚ) (j : Nat) (w : ℚ) (h : j < v.length) :
    sumSq (v.set j w) = sumSq v - v.getD j 0 * v.getD j 0 + w * w := by
  induction v generalizing j with
  | nil => simp at h
  | cons a t ih =>
    cases j with
    | zero =>
      simp only [List.set_cons_zero, sumSq_cons, List.getD_cons_zero]
      ring
    | succ j =>
      simp only [List.set_cons_succ, sumSq_cons, List.getD_cons_succ]
      rw [ih j (by simpa using h)]
      ring

theorem euclOps_exp (v p : List ℚ) : euclOps.exp v p = addL p v := rfl

theorem euclOps_sqd (p q : List ℚ) : euclOps.squared_dist p q = sumSq (subL p q) := rfl

theorem euclOps_reg (c p : List ℚ) : euclOps.reg_term c p = 0 := rfl

/-- Shifting the `j`-th intercept coordinate by `δ` changes one sample's
squared-distance term by `-2δ r + δ²` where `r` is that coordinate's
residual. -/
theorem term_set_i (xi : ℚ) (yi ι c : List ℚ) (j : Nat) (δ : ℚ)
    (hι : j < ι.length) (hc : j < c.length) (hy : j < yi.length) :
    sumSq (subL yi (addL (ι.set j (ι.getD j 0 + δ)) (scalarMul xi c)))
      = sumSq (subL yi (addL ι (scalarMul xi c)))
        - 2 * δ * (yi.getD j 0 - (ι.getD j 0 + xi * c.getD j 0)) + δ * δ := by
  simp only [subL, addL, scalarMul]
  have hw : j < (c.map fun x => xi * x).length := by simpa using hc
  have hu : j < (List.zipWith (· + ·) ι (c.map fun x => xi * x)).length := by
    rw [List.length_zipWith]; exact lt_min hι hw
  have hv : j < (List.zipWith (· - ·) yi (List.zipWith (· + ·) ι (c.map fun x => xi * x))).length := by
    rw [List.length_zipWith]; exact lt_min hy hu
  rw [zipWith_set_left (· + ·) ι (c.map fun x => xi * x) j (ι.getD j 0 + δ) hι hw]
  rw [zipWith_set_right (· - ·) yi (List.zipWith (· + ·) ι (c.map fun x => xi * x)) j _ hy hu]
  rw [sumSq_set _ j _ hv]
  rw [getD_zipWith_lt (· - ·) yi _ j hy hu]
  rw [getD_zipWith_lt (· + ·) ι _ j hι hw]
  rw [getD_map_lt (fun x => xi * x) c j hc]
  ring

/-- Shifting the `j`-th coefficient coordinate by `δ` changes one sample's
squared-distance term by `-2 X_i δ r + X_i² δ²`. -/
theorem term_set_c (xi : ℚ) (yi ι c : List ℚ) (j : Nat) (δ : ℚ)
    (hι : j < ι.length) (hc : j < c.length) (hy : j < yi.length) :
    sumSq (subL yi (addL ι (scalarMul xi (c.set j (c.getD j 0 + δ)))))
      = sumSq (subL yi (addL ι (scalarMul xi c)))
        - 2 * (xi * δ) * (yi.getD j 0 - (ι.getD j 0 + xi * c.getD j 0))
        + (xi * δ) * (xi * δ) := by
  simp only [subL, addL, scalarMul]
  have hw : j < (c.map fun x => xi * x).length := by simpa using hc
  have hu : j < (List.zipWith (· + ·) ι (c.map fun x => xi * x)).length := by
    rw [List.length_zipWith]; exact lt_min hι hw
  have hv : j < (List.zipWith (· - ·) yi (List.zipWith (· + ·) ι (c.map fun x => xi * x))).length := by
    rw [List.length_zipWith]; exact lt_min hy hu
  rw [List.map_set]
  rw [zipWith_set_right (· + ·) ι (c.map fun x => xi * x) j _ hι hw]
  rw [zipWith_set_right (· - ·) yi (List.zipWith (· + ·) ι (c.map fun x => xi * x)) j _ hy hu]
  rw [sumSq_set _ j _ hv]
  rw [getD_zipWith_lt (· - ·) yi _ j hy hu]
  rw [getD_zipWith_lt (· + ·) ι _ j hι hw]
  rw [getD_map_lt (fun x => xi * x) c j hc]
  ring

theorem lossSum_cons (M : ManifoldOps) (x : ℚ) (xs : List ℚ) (yi : List ℚ)
    (ys : List (List ℚ)) (ι c : List ℚ) :
    lossSum M (x :: xs) (yi :: ys) ι c
      = M.squared_dist yi (M.exp (scalarMul x c) ι) + lossSum M xs ys ι c := rfl

theorem resI_cons (x : ℚ) (xs : List ℚ) (yi : List ℚ) (ys : List (List ℚ))
    (ι c : List ℚ) (j : Nat) :
    resI (x :: xs) (yi :: ys) ι c j
      = (yi.getD j 0 - (ι.getD j 0 + x * c.getD j 0)) + resI xs ys ι c j := rfl

theorem resX_cons (x : ℚ) (xs : List ℚ) (yi : List ℚ) (ys : List (List ℚ))
    (ι c : List ℚ) (j : Nat) :
    resX (x :: xs) (yi :: ys) ι c j
      = x * (yi.getD j 0 - (ι.getD j 0 + x * c.getD j 0)) + resX xs ys ι c j := rfl

theorem sumXX_cons (x : ℚ) (xs : List ℚ) (yi : List ℚ) (ys : List (List ℚ)) :
    sumXX (x :: xs) (yi :: ys) = x * x + sumXX xs ys := rfl

theorem cntQ_cons (x : ℚ) (xs : List ℚ) (yi : List ℚ) (ys : List (List ℚ)) :
    cntQ (x :: xs) (yi :: ys) = 1 + cntQ xs ys := rfl

/-- Shifting the `j`-th intercept coordinate shifts the Euclidean loss sum
by `-2δ ⬝ resI + δ² ⬝ n`. -/
theorem lossSum_set_i (X : List ℚ) (y : List (List ℚ)) (ι c : List ℚ) (j : Nat) (δ : ℚ)
    (hι : j < ι.length) (hc : j < c.length) (hy : ∀ yi ∈ y, j < yi.length) :
    lossSum euclOps X y (ι.set j (ι.getD j 0 + δ)) c
      = lossSum euclOps X y ι c - 2 * δ * resI X y ι c j + δ * δ * cntQ X y := by
  induction X generalizing y with
  | nil => simp [lossSum, resI, cntQ, sumL]
  | cons x xs ih =>
    cases y with
    | nil => simp [lossSum, resI, cntQ, sumL]
    | cons yi ys =>
      have hyi : j < yi.length := hy yi (List.mem_cons_self _ _)
      have hys : ∀ z ∈ ys, j < z.length := fun z hz => hy z (List.mem_cons_of_mem _ hz)
      rw [lossSum_cons, lossSum_cons, resI_cons, cntQ_cons, ih ys hys]
      simp only [euclOps_sqd, euclOps_exp]
      rw [term_set_i x yi ι c j δ hι hc hyi]
      ring

/-- Shifting the `j`-th coefficient coordinate shifts the Euclidean loss
sum by `-2δ ⬝ resX + δ² ⬝ sumXX`. -/
theorem lossSum_set_cf (X : List ℚ) (y : List (List ℚ)) (ι c : List ℚ) (j : Nat) (δ : ℚ)
    (hι : j < ι.length) (hc : j < c.length) (hy : ∀ yi ∈ y, j < yi.length) :
    lossSum euclOps X y ι (c.set j (c.getD j 0 + δ))
      = lossSum euclOps X y ι c - 2 * δ * resX X y ι c j + δ * δ * sumXX X y := by
  induction X generalizing y with
  | nil => simp [lossSum, resX, sumXX, sumL]
  | cons x xs ih =>
    cases y with
    | nil => simp [lossSum, resX, sumXX, sumL]
    | cons yi ys =>
      have hyi : j < yi.length := hy yi (List.mem_cons_self _ _)
      have hys : ∀ z ∈ ys, j < z.length := fun z hz => hy z (List.mem_cons_of_mem _ hz)
      rw [lossSum_cons, lossSum_cons, resX_cons, sumXX_cons, ih ys hys]
      simp only [euclOps_sqd, euclOps_exp]
      rw [term_set_c x yi ι c j δ hι hc hyi]
      ring

theorem getD_map_range (g : Nat → ℚ) (k j : Nat) (h : j < k) :
    ((List.range k).map g).getD j 0 = g j := by
  rw [List.getD_eq_getElem _ _ (by simpa using h)]
  simp

/-- The loss value at an unperturbed parameter `[intercept, coef]`. -/
theorem loss_item_plain (reg : ℚ) (X : List ℚ) (y : List (List ℚ)) (shape : List Nat)
    (ι c : List ℚ) (param : Tensor)
    (hp : param.data = ι ++ c) (hι : ι.length = shapeProd shape) :
    (loss euclOps reg X y param shape).item
      = lossSum euclOps X y ι c / (X.length : ℚ) := by
  simp only [loss, Tensor.item, Tensor.scalar, List.headD]
  rw [hp, List.take_left' hι, List.drop_left' hι, euclOps_reg]
  ring

/-- The loss value after bumping an intercept coordinate of the parameter. -/
theorem loss_item_bump_i (reg : ℚ) (X : List ℚ) (y : List (List ℚ)) (shape : List Nat)
    (ι c : List ℚ) (param : Tensor) (j : Nat) (δ : ℚ)
    (hp : param.data = ι ++ c) (hι : ι.length = shapeProd shape)
    (hj : j < shapeProd shape) :
    (loss euclOps reg X y (bumpAt param j δ) shape).item
      = lossSum euclOps X y (ι.set j (ι.getD j 0 + δ)) c / (X.length : ℚ) := by
  have hjι : j < ι.length := by omega
  have hgd : (ι ++ c).getD j 0 = ι.getD j 0 := List.getD_append _ _ _ j hjι
  have hset : (bumpAt param j δ).data = ι.set j (ι.getD j 0 + δ) ++ c := by
    show param.data.set j (param.data.getD j 0 + δ) = _
    rw [hp, hgd, List.set_append, if_pos hjι]
  have hlen' : (ι.set j (ι.getD j 0 + δ)).length = shapeProd shape := by
    rw [List.length_set]; exact hι
  simp only [loss, Tensor.item, Tensor.scalar, List.headD]
  rw [hset, List.take_left' hlen', List.drop_left' hlen', euclOps_reg]
  ring

/-- The loss value after bumping a coefficient coordinate of the parameter. -/
theorem loss_item_bump_c (reg : ℚ) (X : List ℚ) (y : List (List ℚ)) (shape : List Nat)
    (ι c : List ℚ) (param : Tensor) (j : Nat) (δ : ℚ)
    (hp : param.data = ι ++ c) (hι : ι.length = shapeProd shape)
    (hj : shapeProd shape ≤ j) :
    (loss euclOps reg X y (bumpAt param j δ) shape).item
      = lossSum euclOps X y ι
          (c.set (j - shapeProd shape) (c.getD (j - shapeProd shape) 0 + δ))
        / (X.length : ℚ) := by
  have hjι : ι.length ≤ j := by omega
  have hgd : (ι ++ c).getD j 0 = c.getD (j - shapeProd shape) 0 := by
    rw [List.getD_append_right _ _ _ j hjι, hι]
  have hset : (bumpAt param j δ).data
      = ι ++ c.set (j - shapeProd shape) (c.getD (j - shapeProd shape) 0 + δ) := by
    show param.data.set j (param.data.getD j 0 + δ) = _
    rw [hp, hgd, List.set_append, if_neg (by omega), hι]
  simp only [loss, Tensor.item, Tensor.scalar, List.headD]
  rw [hset, List.take_left' hι, List.drop_left' hι, euclOps_reg]
  ring

/-- An intercept entry of the adapter's gradient of the Euclidean loss is
the analytic partial derivative `-2 resI / n`. -/
theorem grad_entry_i (reg : ℚ) (X : List ℚ) (y : List (List ℚ)) (shape : List Nat)
    (ι c : List ℚ) (param : Tensor) (j : Nat)
    (hp : param.data = ι ++ c) (hι : ι.length = shapeProd shape)
    (hc : c.length = shapeProd shape)
    (hy : ∀ yi ∈ y, yi.length = shapeProd shape)
    (hj : j < shapeProd shape) :
    (value_and_grad (fun p => (loss euclOps reg X y p shape).item) param).2.data.getD j 0
      = -(2 * resI X y ι c j) / (X.length : ℚ) := by
  have hlen2 : param.data.length = 2 * shapeProd shape := by
    rw [hp, List.length_append, hι, hc]; ring
  have hjι : j < ι.length := by omega
  have hjc : j < c.length := by omega
  have hylt : ∀ yi ∈ y, j < yi.length := fun yi hyi => by rw [hy yi hyi]; exact hj
  simp only [value_and_grad]
  rw [getD_map_range _ _ j (by omega)]
  rw [loss_item_bump_i reg X y shape ι c param j 1 hp hι hj]
  rw [loss_item_bump_i reg X y shape ι c param j (-1) hp hι hj]
  rw [lossSum_set_i X y ι c j 1 hjι hjc hylt]
  rw [lossSum_set_i X y ι c j (-1) hjι hjc hylt]
  rw [div_sub_div_same, div_div]
  rw [show (lossSum euclOps X y ι c - 2 * 1 * resI X y ι c j + 1 * 1 * cntQ X y)
        - (lossSum euclOps X y ι c - 2 * (-1) * resI X y ι c j + (-1) * (-1) * cntQ X y)
      = -(2 * resI X y ι c j) * 2 from by ring]
  rw [mul_div_mul_right _ _ two_ne_zero]

/-- A coefficient entry of the adapter's gradient of the Euclidean loss is
the analytic partial derivative `-2 resX / n`. -/
theorem grad_entry_c (reg : ℚ) (X : List ℚ) (y : List (List ℚ)) (shape : List Nat)
    (ι c : List ℚ) (param : Tensor) (j : Nat)
    (hp : param.data = ι ++ c) (hι : ι.length = shapeProd shape)
    (hc : c.length = shapeProd shape)
    (hy : ∀ yi ∈ y, yi.length = shapeProd shape)
    (hj1 : shapeProd shape ≤ j) (hj2 : j < 2 * shapeProd shape) :
    (value_and_grad (fun p => (loss euclOps reg X y p shape).item) param).2.data.getD j 0
      = -(2 * resX X y ι c (j - shapeProd shape)) / (X.length : ℚ) := by
  have hlen2 : param.data.length = 2 * shapeProd shape := by
    rw [hp, List.length_append, hι, hc]; ring
  have hjι : j - shapeProd shape < ι.length := by omega
  have hjc : j - shapeProd shape < c.length := by omega
  have hylt : ∀ yi ∈ y, j - shapeProd shape < yi.length := fun yi hyi => by
    rw [hy yi hyi]; omega
  simp only [value_and_grad]
  rw [getD_map_range _ _ j (by omega)]
  rw [loss_item_bump_c reg X y shape ι c param j 1 hp hι hj1]
  rw [loss_item_bump_c reg X y shape ι c param j (-1) hp hι hj1]
  rw [lossSum_set_cf X y ι c (j - shapeProd shape) 1 hjι hjc hylt]
  rw [lossSum_set_cf X y ι c (j - shapeProd shape) (-1) hjι hjc hylt]
  rw [div_sub_div_same, div_div]
  rw [show (lossSum euclOps X y ι c - 2 * 1 * resX X y ι c (j - shapeProd shape)
          + 1 * 1 * sumXX X y)
        - (lossSum euclOps X y ι c - 2 * (-1) * resX X y ι c (j - shapeProd shape)
          + (-1) * (-1) * sumXX X y)
      = -(2 * resX X y ι c (j - shapeProd shape)) * 2 from by ring]
  rw [mul_div_mul_right _ _ two_ne_zero]

/-- C8: for a generic (non-degenerate) parameter — one at which the
analytic gradient of the Euclidean regression loss is not identically
zero — the adapter's loss value is the well-defined rational given by the
loss formula, and the gradient it returns (whose entries are all
well-defined rationals, so none is non-finite) is not uniformly zero. -/
theorem C8_grad_generic_nonzero
    (reg : ℚ) (X : List ℚ) (y : List (List ℚ)) (shape : List Nat)
    (ι c : List ℚ) (param : Tensor)
    (hp : param.data = ι ++ c)
    (hι : ι.length = shapeProd shape) (hc : c.length = shapeProd shape)
    (hy : ∀ yi ∈ y, yi.length = shapeProd shape)
    (hgen : ∃ j, j < shapeProd shape
      ∧ (resI X y ι c j ≠ 0 ∨ resX X y ι c j ≠ 0)) :
    (value_and_grad (fun p => (loss euclOps reg X y p shape).item) param).1
      = lossSum euclOps X y ι c / (X.length : ℚ)
    ∧ (value_and_grad (fun p => (loss euclOps reg X y p shape).item) param).2.data.length
        = 2 * shapeProd shape
    ∧ ∃ j, j < 2 * shapeProd shape
        ∧ (value_and_grad (fun p => (loss euclOps reg X y p shape).item)
            param).2.data.getD j 0 ≠ 0 := by
  have hval : (value_and_grad (fun p => (loss euclOps reg X y p shape).item) param).1
      = lossSum euclOps X y ι c / (X.length : ℚ) := by
    simp only [value_and_grad]
    exact loss_item_plain reg X y shape ι c param hp hι
  have hlen2 : (value_and_grad (fun p => (loss euclOps reg X y p shape).item)
      param).2.data.length = 2 * shapeProd shape := by
    simp only [value_and_grad]
    rw [List.length_map, List.length_range, hp, List.length_append, hι, hc]
    ring
  refine ⟨hval, hlen2, ?_⟩
  obtain ⟨j, hj, hcase⟩ := hgen
  have hXne : X ≠ [] := by
    intro hX
    subst hX
    rcases hcase with h | h <;> exact h rfl
  have hn : (X.length : ℚ) ≠ 0 := by
    rw [Nat.cast_ne_zero]
    intro h0
    exact hXne (List.length_eq_zero.mp h0)
  rcases hcase with h | h
  · refine ⟨j, by omega, ?_⟩
    rw [grad_entry_i reg X y shape ι c param j hp hι hc hy hj]
    exact div_ne_zero (neg_ne_zero.mpr (mul_ne_zero two_ne_zero h)) hn
  · refine ⟨shapeProd shape + j, by omega, ?_⟩
    rw [grad_entry_c reg X y shape ι c param (shapeProd shape + j) hp hι hc hy
      (by omega) (by omega)]
    rw [Nat.add_sub_cancel_left]
    exact div_ne_zero (neg_ne_zero.mpr (mul_ne_zero two_ne_zero h)) hn

/-- Witness for C8 on the Euclidean space with one sample and a parameter
away from the least-squares optimum. -/
theorem C8_witness :
    (value_and_grad (fun p => (loss euclOps 5 [1] [[(1 : ℚ)]] p [1]).item)
        ⟨[2, 1], [0, 0], by decide⟩).1
      = lossSum euclOps [1] [[(1 : ℚ)]] [0] [0] / ((([1] : List ℚ).length : ℕ) : ℚ)
    ∧ (value_and_grad (fun p => (loss euclOps 5 [1] [[(1 : ℚ)]] p [1]).item)
        ⟨[2, 1], [0, 0], by decide⟩).2.data.length = 2 * shapeProd [1]
    ∧ ∃ j, j < 2 * shapeProd [1]
        ∧ (value_and_grad (fun p => (loss euclOps 5 [1] [[(1 : ℚ)]] p [1]).item)
            ⟨[2, 1], [0, 0], by decide⟩).2.data.getD j 0 ≠ 0 :=
  C8_grad_generic_nonzero 5 [1] [[1]] [1] [0] [0] ⟨[2, 1], [0, 0], by decide⟩
    rfl rfl rfl
    (by intro yi hyi; simp only [List.mem_singleton] at hyi; subst hyi; rfl)
    ⟨0, by norm_num [shapeProd], Or.inl (by norm_num [resI, sumL])⟩

end Geomstats
